import Mathlib

/-
Shallow embedding of the non-transitive dice game implemented in
src/task3.js, together with theorems settling the specification claims.

Modelling conventions:
  * JS numbers that are known to hold integers are modelled as `Int`
    (or `Nat` where the source value is manifestly non-negative).
    The JS value `NaN` is modelled by the `JSNum.nan` constructor and
    `undefined` by `Option.none`.
  * JS `%` on integers truncates toward zero, so it is modelled by
    `Int.tmod` (for operands that are provably non-negative this agrees
    with `Int.emod`, Lean's `%`).
  * Interactive input is modelled by threading an explicit script: a
    `List String` of the lines the user types.  A function that would
    block forever waiting for more input returns `none` when the script
    is exhausted.
  * `crypto.randomBytes` draws are modelled by an explicit list of byte
    lists handed to `generateUniformRandom`; the committed computer
    number of one fair-exchange round is handed to
    `fairRandomGeneration` as a parameter.
-/

/-- A JS number that is either an actual integer or `NaN`. -/
inductive JSNum where
  | nan : JSNum
  | int (n : ℤ) : JSNum
deriving DecidableEq, Repr

/-- JS whitespace recognised by our model of `String.prototype.trim` and
of `parseInt`'s leading-whitespace skipping. -/
def isWS (c : Char) : Bool :=
  c = ' ' || c = '\t' || c = '\n' || c = '\r'

/-- Model of `String.prototype.trim()`: strip leading and trailing
whitespace. -/
def jsTrim (s : String) : String :=
  String.mk (((s.toList.dropWhile isWS).reverse.dropWhile isWS).reverse)

/-- ASCII upper-casing of one character, as `String.prototype.toUpperCase`
acts on the ASCII letters used by the program. -/
def upChar (c : Char) : Char :=
  if 'a' ≤ c ∧ c ≤ 'z' then Char.ofNat (c.toNat - 32) else c

/-- Model of `String.prototype.toUpperCase()` on the ASCII strings this
program compares against. -/
def jsUpper (s : String) : String :=
  String.mk (s.toList.map upChar)

/-- Longest prefix of decimal digits, used by the `parseInt` model. -/
def leadingDigits : List Char → List Char
  | [] => []
  | c :: cs => if c.isDigit then c :: leadingDigits cs else []

/-- Numeric value of a most-significant-first digit list. -/
def digitsVal (ds : List Char) : ℕ :=
  ds.foldl (fun a c => 10 * a + (c.toNat - 48)) 0

/-- Model of JS `parseInt(s)` (radix 10, as used throughout task3.js):
skip leading whitespace, read an optional sign and then the longest
prefix of decimal digits; `NaN` when there is no digit.  Trailing
characters are ignored, so `parseInt("3.7")` is `3`. -/
def jsParseInt (s : String) : JSNum :=
  match s.toList.dropWhile isWS with
  | [] => .nan
  | c :: rest =>
    if c = '-' then
      if leadingDigits rest = [] then .nan
      else .int (-(digitsVal (leadingDigits rest) : ℤ))
    else if c = '+' then
      if leadingDigits rest = [] then .nan
      else .int ((digitsVal (leadingDigits rest) : ℤ))
    else
      if leadingDigits (c :: rest) = [] then .nan
      else .int ((digitsVal (leadingDigits (c :: rest)) : ℤ))

/-- Model of `s.split(',')` (auxiliary recursion over characters). -/
def splitCommaAux : List Char → List Char → List (List Char)
  | [], acc => [acc.reverse]
  | c :: cs, acc =>
    if c = ',' then acc.reverse :: splitCommaAux cs []
    else splitCommaAux cs (c :: acc)

/-- Model of `configStr.split(',')` from `parseDiceConfig`. -/
def splitComma (s : String) : List String :=
  (splitCommaAux s.toList []).map String.mk

/-! ## SecureRandomGenerator.generateUniformRandom (task3.js lines 9-26) -/

/-- JS `ToInt32`: reduce an integer modulo `2^32` into the signed range
`[-2^31, 2^31)`.  The `<<` operator applies this wrap to its result. -/
def toInt32 (x : ℤ) : ℤ :=
  if x % 4294967296 < 2147483648 then x % 4294967296
  else x % 4294967296 - 4294967296

/-- Big-endian assembly of the bytes returned by one
`crypto.randomBytes(bytesNeeded)` call, modelling
`randomValue = (randomValue << 8) + randomBytes[i]`.  JS `<<` converts
its operand to a signed 32-bit integer and wraps the shifted result the
same way (`toInt32`); the following `+ randomBytes[i]` is exact float
addition.  For at most 3 bytes the accumulator stays below `2^24` and
the wrap is the identity; from 4 bytes on the shift can wrap to a
negative value. -/
def assembleBytes (bytes : List ℕ) : ℤ :=
  bytes.foldl (fun (acc : ℤ) (b : ℕ) => toInt32 (acc * 256) + (b : ℤ)) 0

/-- Auxiliary search for `bytesNeeded`: starting at width `b`, return the
first byte width whose value space covers `range` (with enough fuel). -/
def bytesNeededGo (range : ℕ) : ℕ → ℕ → ℕ
  | 0, b => b
  | fuel + 1, b => if range ≤ 256 ^ b then b else bytesNeededGo range fuel (b + 1)

/-- `bytesNeeded = Math.ceil(Math.log2(range) / 8)` from the source,
modelled for `range ≥ 1` as the least `b` with `range ≤ 256 ^ b` (see
`bytesNeeded_spec`).  The double-precision computation agrees with this
exact value whenever the gap between `log2 range` and the next lower
multiple of 8 exceeds the rounding error of `Math.log2`; that holds for
every range appearing in the theorems below (ranges up to `2 ^ 24` and
the range `2 ^ 24 + 1`, whose `log2` exceeds 24 by about `8.6e-8`,
far above the rounding error near 24). -/
def bytesNeeded (range : ℕ) : ℕ :=
  bytesNeededGo range range 0

/-- `maxValid = Math.floor(Math.pow(256, bytesNeeded) / range) * range - 1`
from the source's rejection loop. -/
def maxValidFor (b range : ℕ) : ℤ :=
  ((256 ^ b / range * range : ℕ) : ℤ) - 1

/-- The source's `do { ... } while (randomValue > maxValid)` rejection
loop, run over an explicit list of candidate byte draws; `none` when the
supplied entropy is exhausted.  A wrapped (negative) `randomValue` is
never `> maxValid`, so it is accepted. -/
def rejectLoop (b range : ℕ) : List (List ℕ) → Option ℤ
  | [] => none
  | bytes :: rest =>
    if assembleBytes bytes > maxValidFor b range then
      rejectLoop b range rest
    else some (assembleBytes bytes)

/-- `SecureRandomGenerator.generateUniformRandom(min, max)`: reject and
resample draws above `maxValid`, then return
`randomValue % range + min` for the first accepted draw, with JS's
truncating `%` (`Int.tmod`), which is negative when a wrapped
`randomValue` is negative. -/
def generateUniformRandom (min max : ℤ) (draws : List (List ℕ)) : Option ℤ :=
  match rejectLoop (bytesNeeded (max - min + 1).toNat) (max - min + 1).toNat draws with
  | none => none
  | some v => some (Int.tmod v (max - min + 1) + min)

/-! ## SecureRandomGenerator.getUserNumber (task3.js lines 55-79) -/

/-- Outcome of one accepted line at the fair-exchange prompt:
`null` (exit), the string `'?'` (help), or a parsed in-range number. -/
inductive UserNum where
  | cancel : UserNum
  | help : UserNum
  | val (n : ℤ) : UserNum
deriving DecidableEq, Repr

/-- `SecureRandomGenerator.getUserNumber(min, max, rl)`: loop over input
lines; `X`/`x` returns `null` (modelled `cancel`), `?` returns the
string `'?'` (modelled `help`), a parsed integer in `[min, max]` is
returned, and anything else re-prompts. -/
def getUserNumber (min max : ℤ) : List String → Option (UserNum × List String)
  | [] => none
  | s :: rest =>
    if jsUpper (jsTrim s) = "X" then some (.cancel, rest)
    else if jsTrim s = "?" then some (.help, rest)
    else
      match jsParseInt (jsTrim s) with
      | .int n =>
        if min ≤ n ∧ n ≤ max then some (.val n, rest)
        else getUserNumber min max rest
      | .nan => getUserNumber min max rest

/-! ## SecureRandomGenerator.fairRandomGeneration (task3.js lines 34-53) -/

/-- The value a fair-exchange round hands back to its caller:
`null` on user exit, an integer, or `NaN`. -/
inductive ExchangeRes where
  | cancelled : ExchangeRes
  | num (n : ℤ) : ExchangeRes
  | nan : ExchangeRes
deriving DecidableEq, Repr

/-- Observable outcome of one `fairRandomGeneration` round:
whether the HMAC key was printed (revealed), the returned value, and the
unread input script. -/
structure ExchangeOut where
  keyRevealed : Bool
  result : ExchangeRes
  rest : List String
deriving DecidableEq, Repr

/-- `SecureRandomGenerator.fairRandomGeneration(min, max, rl, purpose)`
with the committed computer number handed in as `computerNumber`.
The source checks only `userNumber === null` before printing the key, so
the `'?'` sentinel returned by `getUserNumber` flows on: the key is
revealed and `(computerNumber + '?')` — number plus string — concatenates
to a non-numeric string, whose `%` is `NaN`; the round then returns
`NaN + min = NaN`.  A numeric contribution `u` yields
`(computerNumber + u) % (max - min + 1) + min` with JS truncating `%`. -/
def fairRandomGeneration (min max computerNumber : ℤ) (inputs : List String) :
    Option ExchangeOut :=
  match getUserNumber min max inputs with
  | none => none
  | some (.cancel, rest) => some ⟨false, .cancelled, rest⟩
  | some (.help, rest) => some ⟨true, .nan, rest⟩
  | some (.val u, rest) =>
    some ⟨true, .num (Int.tmod (computerNumber + u) (max - min + 1) + min), rest⟩

/-! ## Dice model (task3.js lines 90-108) -/

/-- `Dice.prototype.getValue(faceIndex)`, i.e. `this.faces[faceIndex]`:
a JS array access that returns `undefined` (`none`) for `NaN`, negative
or too-large indices, with no bounds check of its own. -/
def getValue (faces : List ℤ) : JSNum → Option ℤ
  | .nan => none
  | .int n => if 0 ≤ n then faces.get? n.toNat else none

/-! ## ProbabilityCalculator (task3.js lines 110-141) -/

/-- The `wins` counter of `calculatePairProbability`: for each face of
`dice1`, count the faces of `dice2` it strictly beats. -/
def countWins : List ℤ → List ℤ → ℕ
  | [], _ => 0
  | f1 :: fs, d2 => d2.countP (fun f2 => decide (f2 < f1)) + countWins fs d2

/-- The `total` counter of `calculatePairProbability`: one increment per
face pair visited by the nested loops. -/
def countPairs : List ℤ → List ℤ → ℕ
  | [], _ => 0
  | _ :: fs, d2 => d2.length + countPairs fs d2

/-- `ProbabilityCalculator.calculatePairProbability(dice1, dice2)` =
`wins / total`, as an exact rational. -/
def calculatePairProbability (d1 d2 : List ℤ) : ℚ :=
  (countWins d1 d2 : ℚ) / (countPairs d1 d2 : ℚ)

/-- `ProbabilityCalculator.calculateWinProbabilities(dice)`: the square
matrix with `0.5` on the diagonal and the pairwise win probability
elsewhere. -/
def calculateWinProbabilities (dice : List (List ℤ)) : List (List ℚ) :=
  (List.range dice.length).map (fun i =>
    (List.range dice.length).map (fun j =>
      if i = j then (1 : ℚ) / 2
      else calculatePairProbability (dice.getD i []) (dice.getD j [])))

/-- Entry `[i][j]` of the probability matrix. -/
def probEntry (dice : List (List ℤ)) (i j : ℕ) : ℚ :=
  ((calculateWinProbabilities dice).getD i []).getD j 0

/-! ## DiceGame (task3.js lines 182-331) -/

/-- `DiceGame.prototype.determineFirstPlayer()`: one fair exchange over
`[0, 1]`; `null` propagates, and the returned value `v` yields
`v === 0` (computer moves first).  The source's `result === '?'`
help-redisplay branch can never fire — `fairRandomGeneration` returns a
number (possibly `NaN`) or `null`, never the string `'?'` — so the
`while (true)` body runs exactly once; note `NaN === 0` is `false`. -/
def determineFirstPlayer (c : ℤ) (inputs : List String) :
    Option (Option Bool × List String) :=
  match fairRandomGeneration 0 1 c inputs with
  | none => none
  | some out =>
    match out.result with
    | .cancelled => some (none, out.rest)
    | .nan => some (some false, out.rest)
    | .num n => some (some (decide (n = 0)), out.rest)

/-- `DiceGame.prototype.computerChooseDice(excludeIndex)`: filter out the
excluded index, then pick `availableDice[randomIndex]` (the
`Math.random()` draw is modelled by the parameter `randomIndex`) and
return that die's `index`.  Dice are identified with their indices, so
the filtered die list is a filtered `List.range`. -/
def computerChooseDice (n : ℕ) (excludeIndex : ℤ) (randomIndex : ℕ) : Option ℕ :=
  ((List.range n).filter (fun (i : ℕ) => ((i : ℤ) ≠ excludeIndex : Prop))).get? randomIndex

/-- `DiceGame.prototype.userChooseDice(excludeIndex)`: loop over input
lines; `X`/`x` returns `null`, `?` shows the probability table and
re-prompts, a parsed index in range and not excluded is returned, and
anything else re-prompts. -/
def userChooseDice (n : ℕ) (excludeIndex : ℤ) : List String → Option (Option ℤ × List String)
  | [] => none
  | s :: rest =>
    if jsUpper (jsTrim s) = "X" then some (none, rest)
    else if jsTrim s = "?" then userChooseDice n excludeIndex rest
    else
      match jsParseInt (jsTrim s) with
      | .int d =>
        if 0 ≤ d ∧ d < (n : ℤ) ∧ d ≠ excludeIndex then some (some d, rest)
        else userChooseDice n excludeIndex rest
      | .nan => userChooseDice n excludeIndex rest

/-- `DiceGame.prototype.rollDice(dice, playerName)`: one fair exchange
over `[0, faceCount - 1]`, then `dice.getValue(faceIndex)` is reported as
the roll.  As in `determineFirstPlayer`, the `faceIndex === '?'` branch
is unreachable, so the loop body runs once; the `NaN` produced by the
help slip reaches `getValue` and yields an `undefined` roll (`some none`
in the middle component), which the caller does not treat as `null`. -/
def rollDice (faces : List ℤ) (c : ℤ) (inputs : List String) :
    Option (Option (Option ℤ) × List String) :=
  match fairRandomGeneration 0 ((faces.length : ℤ) - 1) c inputs with
  | none => none
  | some out =>
    match out.result with
    | .cancelled => some (none, out.rest)
    | .nan => some (some (getValue faces .nan), out.rest)
    | .num n => some (some (getValue faces (.int n)), out.rest)

/-- Terminal outcome of `playGame`: user cancellation (the method returns
before any win/lose/tie message), or adjudication of the two reported
roll values (JS `undefined` rolls are `none`). -/
inductive Outcome where
  | exited : Outcome
  | adjudicated (first second : Option ℤ) : Outcome
deriving DecidableEq, Repr

/-- `DiceGame.prototype.playGame()`, with the two roll commitments
`c2`, `c3`, the first-move commitment `c1` and the computer's die pick
`rc` supplied as parameters.  Every `null` from a stage returns with no
adjudication (`Outcome.exited`); otherwise the two rolls are compared
and one of the win/lose/tie messages is printed
(`Outcome.adjudicated`). -/
def playGame (dice : List (List ℤ)) (c1 : ℤ) (rc : ℕ) (c2 c3 : ℤ)
    (inputs : List String) : Option Outcome :=
  match determineFirstPlayer c1 inputs with
  | none => none
  | some (none, _) => some .exited
  | some (some computerFirst, rest) =>
    if computerFirst then
      match computerChooseDice dice.length (-1) rc with
      | none => none
      | some fIdx =>
        match userChooseDice dice.length (fIdx : ℤ) rest with
        | none => none
        | some (none, _) => some .exited
        | some (some sIdx, rest2) =>
          match rollDice (dice.getD fIdx []) c2 rest2 with
          | none => none
          | some (none, _) => some .exited
          | some (some firstRoll, rest3) =>
            match rollDice (dice.getD sIdx.toNat []) c3 rest3 with
            | none => none
            | some (none, _) => some .exited
            | some (some secondRoll, _) => some (.adjudicated firstRoll secondRoll)
    else
      match userChooseDice dice.length (-1) rest with
      | none => none
      | some (none, _) => some .exited
      | some (some fIdx, rest2) =>
        match computerChooseDice dice.length fIdx rc with
        | none => none
        | some sIdx =>
          match rollDice (dice.getD fIdx.toNat []) c2 rest2 with
          | none => none
          | some (none, _) => some .exited
          | some (some firstRoll, rest3) =>
            match rollDice (dice.getD sIdx []) c3 rest3 with
            | none => none
            | some (none, _) => some .exited
            | some (some secondRoll, _) => some (.adjudicated firstRoll secondRoll)

/-! ## Argument parsing (task3.js lines 334-392) -/

instance {ε α : Type} [DecidableEq ε] [DecidableEq α] : DecidableEq (Except ε α) := fun a b =>
  match a, b with
  | .error x, .error y =>
    if h : x = y then .isTrue (by rw [h]) else .isFalse (by simp [h])
  | .error _, .ok _ => .isFalse (by simp)
  | .ok _, .error _ => .isFalse (by simp)
  | .ok x, .ok y =>
    if h : x = y then .isTrue (by rw [h]) else .isFalse (by simp [h])

/-- The `configStr.split(',').map(x => ...)` body of `parseDiceConfig`:
parse each comma-separated token with `parseInt(x.trim())`, throwing on
`NaN`. -/
def parseFaces : List String → Except String (List ℤ)
  | [] => .ok []
  | x :: xs =>
    match jsParseInt (jsTrim x) with
    | .nan => .error "All face values must be integers"
    | .int n =>
      match parseFaces xs with
      | .error m => .error m
      | .ok ns => .ok (n :: ns)

/-- `parseDiceConfig(configStr)`: parse all tokens, then require exactly
6 faces. -/
def parseDiceConfig (s : String) : Except String (List ℤ) :=
  match parseFaces (splitComma s) with
  | .error m => .error m
  | .ok vals =>
    if vals.length ≠ 6 then
      .error ("Each dice must have exactly 6 faces, got " ++ toString vals.length)
    else .ok vals

/-- The indexed `for` loop of `validateArguments`: parse each argument,
wrapping any error with the 1-based die position. -/
def parseAll : ℕ → List String → Except String (List (List ℤ))
  | _, [] => .ok []
  | i, a :: as =>
    match parseDiceConfig a with
    | .error m => .error ("Error in dice " ++ toString (i + 1) ++ ": " ++ m)
    | .ok c =>
      match parseAll (i + 1) as with
      | .error m => .error m
      | .ok cs => .ok (c :: cs)

/-- `validateArguments(args)`: at least 3 dice, then parse each. -/
def validateArguments (args : List String) : Except String (List (List ℤ)) :=
  if args.length < 3 then
    .error ("At least 3 dice configurations required, got " ++ toString args.length)
  else parseAll 0 args

/-- What `main()` does with the CLI arguments before any interaction:
report an argument error (and `process.exit(1)`), or construct the
`DiceGame` state from the validated configurations. -/
inductive MainResult where
  | argError (msg : String) : MainResult
  | game (configs : List (List ℤ)) : MainResult
deriving DecidableEq, Repr

/-- The argument-handling prefix of `main()`: fewer than 3 arguments
prints usage and exits 1; a `validateArguments` throw is caught and
exits 1; otherwise a game is created (and the process later exits 0
whatever the game's outcome — `playGame` never calls `process.exit`). -/
def mainRun (args : List String) : MainResult :=
  if args.length < 3 then .argError "Insufficient arguments"
  else
    match validateArguments args with
    | .error m => .argError m
    | .ok cs => .game cs

/-- The process exit code as a function of argument handling: 1 on an
argument error, 0 once a game state is created. -/
def mainExitCode (args : List String) : ℕ :=
  match mainRun args with
  | .argError _ => 1
  | .game _ => 0

/-! ## Spec-side definitions and proof scaffolding

The following definitions do not embed source code; they state claim-side
notions to be compared with the embedded functions, or construct inputs
for witnesses. -/

/-- Modelled from the claim wording of C7: the largest multiple of
`range` that is representable in `b` bytes, i.e. the largest multiple of
`range` not exceeding `256 ^ b - 1`. -/
def specLargestByteMultiple (b range : ℕ) : ℕ :=
  (256 ^ b - 1) / range * range

/-- All characters are decimal digits. -/
def digitsOnly : List Char → Bool
  | [] => true
  | c :: cs => c.isDigit && digitsOnly cs

/-- Modelled from the claim wording of C5: a token that "is an integer"
in the usual decimal sense — an optional minus sign followed by a
non-empty run of digits and nothing else.  The token "3.7" is not an
integer under this (or any standard) reading. -/
def isIntegerLiteral (s : String) : Bool :=
  match s.toList with
  | [] => false
  | '-' :: cs => !cs.isEmpty && digitsOnly cs
  | cs => !cs.isEmpty && digitsOnly cs

/-- The character for a decimal digit. -/
def digitChar (d : ℕ) : Char :=
  Char.ofNat (48 + d)

/-- Canonical decimal rendering of a natural number, used to build
concrete prompt inputs in proofs. -/
def natDecimalChars (k : ℕ) : List Char :=
  if k = 0 then ['0'] else (Nat.digits 10 k).reverse.map digitChar

/-- Canonical decimal rendering as a string. -/
def natDecimal (k : ℕ) : String :=
  String.mk (natDecimalChars k)

/-! ## Helper lemmas -/

lemma digitChar_props (d : ℕ) (h : d < 10) :
    (digitChar d).isDigit = true ∧ isWS (digitChar d) = false ∧
    upChar (digitChar d) = digitChar d ∧ digitChar d ≠ '-' ∧
    digitChar d ≠ '+' ∧ (digitChar d).toNat - 48 = d := by
  interval_cases d <;> exact (by decide)

lemma dropWhile_eq_self_of_head (p : Char → Bool) (c : Char) (l : List Char)
    (h : p c = false) : (c :: l).dropWhile p = c :: l := by
  simp [List.dropWhile, h]

lemma leadingDigits_of_digits (l : List Char) (h : ∀ c ∈ l, c.isDigit = true) :
    leadingDigits l = l := by
  induction l with
  | nil => rfl
  | cons c cs ih =>
    rw [leadingDigits, if_pos (h c (List.mem_cons_self c cs)),
      ih (fun x hx => h x (List.mem_cons_of_mem c hx))]

lemma digitsVal_append (l : List Char) (c : Char) :
    digitsVal (l ++ [c]) = 10 * digitsVal l + (c.toNat - 48) := by
  simp [digitsVal, List.foldl_append]

lemma digitsVal_rev_map (ds : List ℕ) (h : ∀ d ∈ ds, d < 10) :
    digitsVal (ds.reverse.map digitChar) = Nat.ofDigits 10 ds := by
  induction ds with
  | nil => rfl
  | cons d tl ih =>
    have hd : d < 10 := h d (List.mem_cons_self d tl)
    have htl : ∀ x ∈ tl, x < 10 := fun x hx => h x (List.mem_cons_of_mem d hx)
    rw [List.reverse_cons, List.map_append, List.map_cons, List.map_nil,
      digitsVal_append, ih htl, Nat.ofDigits_cons,
      (digitChar_props d hd).2.2.2.2.2]
    ring

lemma natDecimalChars_props (k : ℕ) :
    ∀ c ∈ natDecimalChars k,
      c.isDigit = true ∧ isWS c = false ∧ upChar c = c ∧ c ≠ '-' ∧ c ≠ '+' := by
  intro c hc
  unfold natDecimalChars at hc
  by_cases hk : k = 0
  · rw [if_pos hk] at hc
    simp at hc
    subst hc
    exact (by decide)
  · rw [if_neg hk] at hc
    rcases List.mem_map.mp hc with ⟨d, hd, rfl⟩
    have h10 : d < 10 :=
      Nat.digits_lt_base (by norm_num) (List.mem_reverse.mp hd)
    have hp := digitChar_props d h10
    exact ⟨hp.1, hp.2.1, hp.2.2.1, hp.2.2.2.1, hp.2.2.2.2.1⟩

lemma dropWhile_eq_self_of_all (p : Char → Bool) (l : List Char)
    (h : ∀ c ∈ l, p c = false) : l.dropWhile p = l := by
  cases l with
  | nil => rfl
  | cons c cs => exact dropWhile_eq_self_of_head p c cs (h c (List.mem_cons_self c cs))

lemma jsTrim_of_no_ws (l : List Char) (h : ∀ c ∈ l, isWS c = false) :
    jsTrim (String.mk l) = String.mk l := by
  unfold jsTrim
  have h1 : (String.mk l).toList = l := rfl
  rw [h1, dropWhile_eq_self_of_all isWS l h,
    dropWhile_eq_self_of_all isWS l.reverse
      (fun c hc => h c (List.mem_reverse.mp hc)),
    List.reverse_reverse]

lemma jsParseInt_digits (l : List Char) (hne : l ≠ [])
    (h : ∀ c ∈ l, c.isDigit = true ∧ isWS c = false ∧ c ≠ '-' ∧ c ≠ '+') :
    jsParseInt (String.mk l) = .int (digitsVal l : ℤ) := by
  cases l with
  | nil => exact absurd rfl hne
  | cons c rest =>
    have hc := h c (List.mem_cons_self c rest)
    have hdig : ∀ x ∈ c :: rest, x.isDigit = true := fun x hx => (h x hx).1
    have hld := leadingDigits_of_digits _ hdig
    unfold jsParseInt
    have htl : (String.mk (c :: rest)).toList = c :: rest := rfl
    rw [htl, dropWhile_eq_self_of_head isWS c rest hc.2.1]
    simp only [if_neg hc.2.2.1, if_neg hc.2.2.2, hld]
    rw [if_neg (List.cons_ne_nil c rest)]

lemma natDecimalChars_ne_nil (k : ℕ) : natDecimalChars k ≠ [] := by
  unfold natDecimalChars
  by_cases hk : k = 0
  · rw [if_pos hk]
    exact List.cons_ne_nil '0' []
  · rw [if_neg hk]
    simp [Nat.digits_ne_nil_iff_ne_zero.mpr hk]

lemma digitsVal_natDecimalChars (k : ℕ) : digitsVal (natDecimalChars k) = k := by
  unfold natDecimalChars
  by_cases hk : k = 0
  · rw [if_pos hk, hk]
    decide
  · rw [if_neg hk,
      digitsVal_rev_map (Nat.digits 10 k)
        (fun d hd => Nat.digits_lt_base (by norm_num) hd),
      Nat.ofDigits_digits]

lemma natDecimal_props (k : ℕ) :
    jsTrim (natDecimal k) = natDecimal k ∧
    jsUpper (natDecimal k) ≠ "X" ∧
    natDecimal k ≠ "?" ∧
    jsParseInt (natDecimal k) = .int (k : ℤ) := by
  have hAll := natDecimalChars_props k
  have hUp : jsUpper (natDecimal k) = natDecimal k := by
    unfold jsUpper natDecimal
    have h1 : (String.mk (natDecimalChars k)).toList = natDecimalChars k := rfl
    rw [h1, List.map_congr_left (fun c hc => (hAll c hc).2.2.1)]
    simp
  refine ⟨?_, ?_, ?_, ?_⟩
  · exact jsTrim_of_no_ws _ (fun c hc => (hAll c hc).2.1)
  · rw [hUp]
    intro hEq
    have hdata : natDecimalChars k = ['X'] := congrArg String.data hEq
    have := (hAll 'X' (by rw [hdata]; exact List.mem_cons_self 'X' [])).1
    exact absurd this (by decide)
  · intro hEq
    have hdata : natDecimalChars k = ['?'] := congrArg String.data hEq
    have := (hAll '?' (by rw [hdata]; exact List.mem_cons_self '?' [])).1
    exact absurd this (by decide)
  · rw [show natDecimal k = String.mk (natDecimalChars k) from rfl,
      jsParseInt_digits _ (natDecimalChars_ne_nil k)
        (fun c hc =>
          ⟨(hAll c hc).1, (hAll c hc).2.1, (hAll c hc).2.2.2.1, (hAll c hc).2.2.2.2⟩),
      digitsVal_natDecimalChars]

lemma parseFaces_error_of_nan (l : List String) (t : String) (ht : t ∈ l)
    (hn : jsParseInt (jsTrim t) = .nan) :
    parseFaces l = .error "All face values must be integers" := by
  induction l with
  | nil => exact absurd ht (List.not_mem_nil t)
  | cons x xs ih =>
    rcases List.mem_cons.mp ht with rfl | hmem
    · rw [parseFaces, hn]
    · rw [parseFaces]
      cases hx : jsParseInt (jsTrim x) with
      | nan => rfl
      | int n => rw [ih hmem]

lemma parseDiceConfig_error_of_faces (s : String) (m : String)
    (h : parseFaces (splitComma s) = .error m) :
    parseDiceConfig s = .error m := by
  rw [parseDiceConfig, h]

lemma parseDiceConfig_ok_length (s : String) (f : List ℤ)
    (h : parseDiceConfig s = .ok f) : f.length = 6 := by
  rw [parseDiceConfig] at h
  split at h
  · exact absurd h (by simp)
  · split at h
    · exact absurd h (by simp)
    · cases h
      omega

lemma parseAll_error_of_mem (args : List String) (a : String) (m : String)
    (ha : a ∈ args) (hm : parseDiceConfig a = .error m) :
    ∀ i, ∃ m2, parseAll i args = .error m2 := by
  induction args with
  | nil => exact absurd ha (List.not_mem_nil a)
  | cons x xs ih =>
    intro i
    rcases List.mem_cons.mp ha with rfl | hmem
    · rw [parseAll, hm]
      exact ⟨_, rfl⟩
    · rw [parseAll]
      cases hx : parseDiceConfig x with
      | error m3 => exact ⟨_, rfl⟩
      | ok c =>
        rcases ih hmem (i + 1) with ⟨m2, hm2⟩
        rw [hm2]
        exact ⟨m2, rfl⟩

lemma parseAll_ok_of_all (args : List String)
    (h : ∀ a ∈ args, ∃ f, parseDiceConfig a = .ok f) :
    ∀ i, ∃ cs, parseAll i args = .ok cs := by
  induction args with
  | nil => exact fun i => ⟨[], rfl⟩
  | cons x xs ih =>
    intro i
    rcases h x (List.mem_cons_self x xs) with ⟨f, hf⟩
    rcases ih (fun a ha => h a (List.mem_cons_of_mem x ha)) (i + 1) with ⟨cs, hcs⟩
    rw [parseAll, hf, hcs]
    exact ⟨f :: cs, rfl⟩

lemma parseAll_ok_shape (args : List String) :
    ∀ i cs, parseAll i args = .ok cs →
      cs.length = args.length ∧ ∀ c ∈ cs, c.length = 6 := by
  induction args with
  | nil =>
    intro i cs h
    rw [parseAll] at h
    cases h
    simp
  | cons x xs ih =>
    intro i cs h
    rw [parseAll] at h
    cases hx : parseDiceConfig x with
    | error m => rw [hx] at h; exact absurd h (by simp)
    | ok c =>
      rw [hx] at h
      cases hxs : parseAll (i + 1) xs with
      | error m => rw [hxs] at h; exact absurd h (by simp)
      | ok cs0 =>
        rw [hxs] at h
        cases h
        rcases ih (i + 1) cs0 hxs with ⟨hlen, hall⟩
        refine ⟨by simp [hlen], ?_⟩
        intro d hd
        rcases List.mem_cons.mp hd with rfl | hmem
        · exact parseDiceConfig_ok_length x d hx
        · exact hall d hmem

lemma countPairs_eq (d1 d2 : List ℤ) : countPairs d1 d2 = d1.length * d2.length := by
  induction d1 with
  | nil => simp [countPairs]
  | cons f fs ih =>
    rw [countPairs, ih]
    simp [Nat.succ_mul]
    omega

lemma countWins_eq_product (d1 d2 : List ℤ) :
    countWins d1 d2 = (d1.product d2).countP (fun p => decide (p.2 < p.1)) := by
  induction d1 with
  | nil => simp [countWins, List.product]
  | cons f fs ih =>
    rw [countWins, ih]
    simp only [List.product, List.flatMap_cons, List.countP_append, List.countP_map]
    rfl

lemma bytesNeededGo_spec (range : ℕ) :
    ∀ (fuel b k : ℕ), b ≤ k → range ≤ 256 ^ k → range ≤ 256 ^ (b + fuel) →
      bytesNeededGo range fuel b ≤ k ∧ range ≤ 256 ^ (bytesNeededGo range fuel b) := by
  intro fuel
  induction fuel with
  | zero =>
    intro b k hbk hk hfuel
    rw [bytesNeededGo]
    exact ⟨hbk, by simpa using hfuel⟩
  | succ n ih =>
    intro b k hbk hk hfuel
    rw [bytesNeededGo]
    by_cases hb : range ≤ 256 ^ b
    · rw [if_pos hb]
      exact ⟨hbk, hb⟩
    · rw [if_neg hb]
      have hbk2 : b + 1 ≤ k := by
        rcases Nat.lt_or_ge b k with h | h
        · omega
        · exact absurd (le_trans hk (Nat.pow_le_pow_right (by norm_num) h)) hb
      exact ih (b + 1) k hbk2 hk (by rw [show b + 1 + n = b + (n + 1) by omega]; exact hfuel)

lemma bytesNeeded_spec (range : ℕ) :
    range ≤ 256 ^ bytesNeeded range ∧
    ∀ k, range ≤ 256 ^ k → bytesNeeded range ≤ k := by
  have hself : range ≤ 256 ^ (0 + range) := by
    calc range ≤ 2 ^ range := le_of_lt (Nat.lt_two_pow range)
    _ ≤ 256 ^ range := Nat.pow_le_pow_left (by norm_num) range
    _ = 256 ^ (0 + range) := by rw [Nat.zero_add]
  constructor
  · exact (bytesNeededGo_spec range range 0 range (Nat.zero_le range)
      (by simpa using hself) hself).2
  · intro k hk
    exact (bytesNeededGo_spec range range 0 k (Nat.zero_le k) hk hself).1

lemma toInt32_eq_self (x : ℤ) (h0 : 0 ≤ x) (h1 : x < 2147483648) :
    toInt32 x = x := by
  unfold toInt32
  rw [Int.emod_eq_of_lt h0 (by omega), if_pos h1]

lemma assembleFold_bounds (bytes : List ℕ) (hb : ∀ x ∈ bytes, x < 256) :
    ∀ acc : ℤ, 0 ≤ acc → (acc + 1) * 256 ^ bytes.length ≤ 2147483648 →
      0 ≤ bytes.foldl (fun (a : ℤ) (c : ℕ) => toInt32 (a * 256) + (c : ℤ)) acc ∧
      bytes.foldl (fun (a : ℤ) (c : ℕ) => toInt32 (a * 256) + (c : ℤ)) acc <
        (acc + 1) * 256 ^ bytes.length := by
  induction bytes with
  | nil =>
    intro acc h0 hbound
    simp only [List.foldl_nil, List.length_nil, pow_zero, mul_one]
    omega
  | cons c cs ih =>
    intro acc h0 hbound
    have hc : (c : ℤ) < 256 := by
      exact_mod_cast hb c (List.mem_cons_self c cs)
    have hc0 : (0 : ℤ) ≤ (c : ℤ) := Int.ofNat_nonneg c
    have hpow0 : (0 : ℤ) < 256 ^ cs.length := pow_pos (by norm_num) cs.length
    have hpow1 : (1 : ℤ) ≤ 256 ^ cs.length := hpow0
    have hb2 : (acc + 1) * (256 ^ cs.length * 256) ≤ 2147483648 := by
      rw [List.length_cons, pow_succ] at hbound
      exact hbound
    have key : (acc + 1) * 256 ≤ (acc + 1) * (256 ^ cs.length * 256) := by
      apply mul_le_mul_of_nonneg_left ?_ (by omega : (0 : ℤ) ≤ acc + 1)
      exact le_mul_of_one_le_left (by norm_num) hpow1
    have hstep1 : acc * 256 < 2147483648 := by linarith
    have hstep0 : (0 : ℤ) ≤ acc * 256 := by positivity
    simp only [List.foldl_cons]
    rw [toInt32_eq_self (acc * 256) hstep0 hstep1]
    have h0p : (0 : ℤ) ≤ acc * 256 + c := by positivity
    have e1 : acc * 256 + c + 1 ≤ (acc + 1) * 256 := by omega
    have e2 : (acc * 256 + c + 1) * 256 ^ cs.length ≤
        (acc + 1) * 256 * 256 ^ cs.length :=
      mul_le_mul_of_nonneg_right e1 (le_of_lt hpow0)
    have e3 : (acc + 1) * 256 * 256 ^ cs.length =
        (acc + 1) * (256 ^ cs.length * 256) := by ring
    have hbound2 : (acc * 256 + (c : ℤ) + 1) * 256 ^ cs.length ≤ 2147483648 := by
      linarith
    rcases ih (fun x hx => hb x (List.mem_cons_of_mem c hx)) (acc * 256 + c)
      h0p hbound2 with ⟨r0, r1⟩
    refine ⟨r0, ?_⟩
    rw [List.length_cons, pow_succ]
    linarith

lemma rejectLoop_mem (b range : ℕ) :
    ∀ (draws : List (List ℕ)) (v : ℤ), rejectLoop b range draws = some v →
      ∃ bytes ∈ draws, assembleBytes bytes = v := by
  intro draws
  induction draws with
  | nil =>
    intro v h
    rw [rejectLoop] at h
    exact absurd h (by simp)
  | cons bytes rest ih =>
    intro v h
    rw [rejectLoop] at h
    by_cases hcond : assembleBytes bytes > maxValidFor b range
    · rw [if_pos hcond] at h
      rcases ih v h with ⟨bs, hbs, hv⟩
      exact ⟨bs, List.mem_cons_of_mem bytes hbs, hv⟩
    · rw [if_neg hcond] at h
      cases h
      exact ⟨bytes, List.mem_cons_self bytes rest, rfl⟩


lemma probEntry_eq (dice : List (List ℤ)) (i j : ℕ)
    (hi : i < dice.length) (hj : j < dice.length) :
    probEntry dice i j =
      if i = j then (1 : ℚ) / 2
      else calculatePairProbability (dice.getD i []) (dice.getD j []) := by
  unfold probEntry calculateWinProbabilities
  simp only [List.getD_eq_getElem?_getD, List.getElem?_map,
    List.getElem?_range hi, List.getElem?_range hj,
    Option.map_some', Option.getD_some]

/-! ## Claim theorems -/

/-- C1: the claim says a Help input (`'?'`) makes the exchange repeat
without consuming a turn, with the committed key not revealed, and that
a round returns only an in-range integer or Cancelled.  The code does
the opposite: on the script `["?"]` the round reveals the key
(`keyRevealed = true`) and returns `NaN` — which is neither a number nor
a cancellation — and `determineFirstPlayer` then consumes that `NaN` as
`NaN === 0 = false`, i.e. "user moves first", instead of re-displaying
the probability table and retrying. -/
theorem C1_help_reveals_key_and_returns_nan :
    fairRandomGeneration 0 1 0 ["?"] = some ⟨true, ExchangeRes.nan, []⟩ ∧
    determineFirstPlayer 0 ["?"] = some (some false, []) ∧
    (∀ n : ℤ, ExchangeRes.nan ≠ ExchangeRes.num n) ∧
    ExchangeRes.nan ≠ ExchangeRes.cancelled :=
  ⟨by decide, by decide, fun n h => ExchangeRes.noConfusion h,
    fun h => ExchangeRes.noConfusion h⟩

/-- C2 counterexample: for the range `[1, 2]`, computer value `1` and
user contribution `1` (which the prompt accepts), the exchange returns
`(1 + 1) % 2 + 1 = 1`, whereas the claimed formula
`(c - min + u) mod (max - min + 1) + min` gives `(1 - 1 + 1) % 2 + 1 = 2`. -/
theorem C2_counterexample :
    fairRandomGeneration 1 2 1 ["1"] = some ⟨true, ExchangeRes.num 1, []⟩ ∧
    (1 - 1 + 1) % (2 - 1 + 1) + 1 = (2 : ℤ) ∧
    ExchangeRes.num 1 ≠ ExchangeRes.num 2 :=
  ⟨by decide, by decide, by decide⟩

/-- C2 as amended: for `0 ≤ min ≤ max`, computer value `c ∈ [min, max]`
and a user contribution `u` accepted by the prompt — the prompt accepts
integers in `[min, max]`, not `[0, max - min]` — the exchange returns
exactly `(c + u) % (max - min + 1) + min` (no `- min` shift on `c`), and
that value lies in `[min, max]`.  For the game's actual calls `min = 0`,
where this coincides with the claimed formula. -/
theorem C2_amended (min max c u : ℤ) (s : String) (rest : List String)
    (h0 : 0 ≤ min) (h1 : min ≤ max) (h2 : min ≤ c) (h3 : c ≤ max)
    (h4 : min ≤ u) (h5 : u ≤ max)
    (hX : jsUpper (jsTrim s) ≠ "X") (hQ : jsTrim s ≠ "?")
    (hu : jsParseInt (jsTrim s) = .int u) :
    fairRandomGeneration min max c (s :: rest) =
      some ⟨true, ExchangeRes.num ((c + u) % (max - min + 1) + min), rest⟩ ∧
    min ≤ (c + u) % (max - min + 1) + min ∧
    (c + u) % (max - min + 1) + min ≤ max := by
  have hw : (0 : ℤ) < max - min + 1 := by omega
  have hmod1 : 0 ≤ (c + u) % (max - min + 1) := Int.emod_nonneg (c + u) (by omega)
  have hmod2 : (c + u) % (max - min + 1) < max - min + 1 :=
    Int.emod_lt_of_pos (c + u) hw
  refine ⟨?_, by omega, by omega⟩
  have hcond : min ≤ u ∧ u ≤ max := ⟨h4, h5⟩
  simp only [fairRandomGeneration, getUserNumber, if_neg hX, if_neg hQ, hu,
    if_pos hcond]
  rw [Int.tmod_eq_emod (by omega) (by omega)]

/-- C2 amended, witness at `min = 0`, `max = 5`, `c = 3`, `u = 4`. -/
theorem C2_amended_witness :
    fairRandomGeneration 0 5 3 ["4"] =
      some ⟨true, ExchangeRes.num ((3 + 4) % (5 - 0 + 1) + 0), []⟩ ∧
    (0 : ℤ) ≤ (3 + 4) % (5 - 0 + 1) + 0 ∧
    (3 + 4 : ℤ) % (5 - 0 + 1) + 0 ≤ 5 :=
  C2_amended 0 5 3 4 "4" [] (by decide) (by decide) (by decide) (by decide)
    (by decide) (by decide) (by decide) (by decide) (by decide)

/-- C3 counterexample: for `A = [2,2,4,4,9,9]` and `B = [1,1,6,6,8,8]`
the pairwise win probability is not `0.5`. -/
theorem C3_counterexample :
    calculatePairProbability [2, 2, 4, 4, 9, 9] [1, 1, 6, 6, 8, 8] ≠ 1 / 2 := by
  have h1 : countWins [2, 2, 4, 4, 9, 9] [1, 1, 6, 6, 8, 8] = 20 := by decide
  have h2 : countPairs [2, 2, 4, 4, 9, 9] [1, 1, 6, 6, 8, 8] = 36 := by decide
  unfold calculatePairProbability
  rw [h1, h2]
  norm_num

/-- C3 as amended: the pairwise probability for these dice does equal
the exact fraction over all 36 face pairs — `A` wins 20 of the 36 pairs
of the full Cartesian product — but that value is `20/36 = 5/9`, not
`0.5`. -/
theorem C3_amended :
    calculatePairProbability [2, 2, 4, 4, 9, 9] [1, 1, 6, 6, 8, 8] = 5 / 9 ∧
    countWins [2, 2, 4, 4, 9, 9] [1, 1, 6, 6, 8, 8] = 20 ∧
    countPairs [2, 2, 4, 4, 9, 9] [1, 1, 6, 6, 8, 8] = 36 ∧
    (([2, 2, 4, 4, 9, 9] : List ℤ).product [1, 1, 6, 6, 8, 8]).countP
      (fun p => decide (p.2 < p.1)) = 20 := by
  have h1 : countWins [2, 2, 4, 4, 9, 9] [1, 1, 6, 6, 8, 8] = 20 := by decide
  have h2 : countPairs [2, 2, 4, 4, 9, 9] [1, 1, 6, 6, 8, 8] = 36 := by decide
  refine ⟨?_, h1, h2, by decide⟩
  unfold calculatePairProbability
  rw [h1, h2]
  norm_num

/-- C4 counterexample: three dice with equal, positive face count 3 are
rejected — the validator does not accept "whatever the shared count is";
it requires exactly 6 faces per die. -/
theorem C4_counterexample :
    validateArguments ["1,2,3", "1,2,3", "1,2,3"] =
      .error "Error in dice 1: Each dice must have exactly 6 faces, got 3" ∧
    mainExitCode ["1,2,3", "1,2,3", "1,2,3"] = 1 :=
  ⟨by decide, by decide⟩

/-- C4 as amended: the shared face count is not "determined by the first
die" — it is hard-coded to 6.  Validation succeeds only on lists of at
least 3 dice in which every die parses to exactly 6 integer faces; it
succeeds whenever all dice individually parse; and any die whose
`parseDiceConfig` throws (in particular any die with a face count other
than 6, hence also any unequal-count set) makes validation fail with an
ArgumentError. -/
theorem C4_amended (args : List String) (cs : List (List ℤ)) :
    (validateArguments args = .ok cs →
      3 ≤ args.length ∧ cs.length = args.length ∧ ∀ c ∈ cs, c.length = 6) ∧
    (3 ≤ args.length → (∀ a ∈ args, ∃ f, parseDiceConfig a = .ok f) →
      ∃ cs2, validateArguments args = .ok cs2) ∧
    (∀ a ∈ args, ∀ m, parseDiceConfig a = .error m →
      ∃ m2, validateArguments args = .error m2) := by
  refine ⟨?_, ?_, ?_⟩
  · intro h
    rw [validateArguments] at h
    by_cases hlen : args.length < 3
    · rw [if_pos hlen] at h
      exact absurd h (by simp)
    · rw [if_neg hlen] at h
      rcases parseAll_ok_shape args 0 cs h with ⟨h1, h2⟩
      exact ⟨by omega, h1, h2⟩
  · intro hlen hall
    rcases parseAll_ok_of_all args hall 0 with ⟨cs2, hcs2⟩
    rw [validateArguments, if_neg (by omega)]
    exact ⟨cs2, hcs2⟩
  · intro a ha m hm
    rw [validateArguments]
    by_cases hlen : args.length < 3
    · rw [if_pos hlen]
      exact ⟨_, rfl⟩
    · rw [if_neg hlen]
      exact parseAll_error_of_mem args a m ha hm 0

/-- C4 amended, witness: three 6-face dice are accepted. -/
theorem C4_amended_witness :
    ∃ cs2, validateArguments ["1,2,3,4,5,6", "1,2,3,4,5,6", "1,2,3,4,5,6"] = .ok cs2 :=
  (C4_amended ["1,2,3,4,5,6", "1,2,3,4,5,6", "1,2,3,4,5,6"] []).2.1 (by decide)
    (by
      intro a ha
      have : a = "1,2,3,4,5,6" := by
        rcases List.mem_cons.mp ha with rfl | h2
        · rfl
        · rcases List.mem_cons.mp h2 with rfl | h3
          · rfl
          · rcases List.mem_cons.mp h3 with rfl | h4
            · rfl
            · exact absurd h4 (List.not_mem_nil a)
      rw [this]
      exact ⟨[1, 2, 3, 4, 5, 6], by decide⟩)

/-- C5 counterexample: the token "3.7" is not an integer, yet the
argument list `["1,2,3,4,5,6", "1,2,3,4,5,6", "1,2,3.7,4,5,6"]` passes
validation — `parseInt("3.7")` silently truncates to `3` — a game state
is created and the process exit code is 0, not non-zero. -/
theorem C5_counterexample :
    isIntegerLiteral "3.7" = false ∧
    validateArguments ["1,2,3,4,5,6", "1,2,3,4,5,6", "1,2,3.7,4,5,6"] =
      .ok [[1, 2, 3, 4, 5, 6], [1, 2, 3, 4, 5, 6], [1, 2, 3, 4, 5, 6]] ∧
    mainRun ["1,2,3,4,5,6", "1,2,3,4,5,6", "1,2,3.7,4,5,6"] =
      .game [[1, 2, 3, 4, 5, 6], [1, 2, 3, 4, 5, 6], [1, 2, 3, 4, 5, 6]] ∧
    mainExitCode ["1,2,3,4,5,6", "1,2,3,4,5,6", "1,2,3.7,4,5,6"] = 0 :=
  ⟨by decide, by decide, by decide, by decide⟩

/-- C5 as amended: only tokens on which `parseInt` yields `NaN` (no
leading digits after an optional sign, e.g. "x") make argument
validation fail; such a token anywhere in the argument list produces an
ArgumentError, the process exits non-zero and no game state is created.
A non-integer token with a digit prefix, such as "3.7", is instead
silently truncated and accepted. -/
theorem C5_amended (args : List String) (a t : String)
    (ha : a ∈ args) (ht : t ∈ splitComma a)
    (hn : jsParseInt (jsTrim t) = .nan) :
    (∃ m, validateArguments args = .error m) ∧
    (∃ m, mainRun args = .argError m) ∧
    mainExitCode args = 1 := by
  have hface : parseFaces (splitComma a) = .error "All face values must be integers" :=
    parseFaces_error_of_nan (splitComma a) t ht hn
  have hcfg : parseDiceConfig a = .error "All face values must be integers" :=
    parseDiceConfig_error_of_faces a _ hface
  have hval : ∃ m, validateArguments args = .error m := by
    rw [validateArguments]
    by_cases hlen : args.length < 3
    · rw [if_pos hlen]
      exact ⟨_, rfl⟩
    · rw [if_neg hlen]
      exact parseAll_error_of_mem args a _ ha hcfg 0
  rcases hval with ⟨m, hm⟩
  have hrun : ∃ m2, mainRun args = .argError m2 := by
    rw [mainRun]
    by_cases hlen : args.length < 3
    · rw [if_pos hlen]
      exact ⟨_, rfl⟩
    · rw [if_neg hlen, hm]
      exact ⟨m, rfl⟩
  rcases hrun with ⟨m2, hm2⟩
  refine ⟨⟨m, hm⟩, ⟨m2, hm2⟩, ?_⟩
  rw [mainExitCode, hm2]

/-- C5 amended, witness: a "x" token anywhere fails validation with exit
code 1 and no game state. -/
theorem C5_amended_witness :
    (∃ m, validateArguments ["x,2,3,4,5,6", "1,2,3,4,5,6", "1,2,3,4,5,6"] = .error m) ∧
    (∃ m, mainRun ["x,2,3,4,5,6", "1,2,3,4,5,6", "1,2,3,4,5,6"] = .argError m) ∧
    mainExitCode ["x,2,3,4,5,6", "1,2,3,4,5,6", "1,2,3,4,5,6"] = 1 :=
  C5_amended ["x,2,3,4,5,6", "1,2,3,4,5,6", "1,2,3,4,5,6"] "x,2,3,4,5,6" "x"
    (by decide) (by decide) (by decide)

/-- C6: every matrix entry `[i][j]` with `i ≠ j` equals the number of
face pairs of the full Cartesian product in which die `i`'s face is
strictly greater than die `j`'s, divided by the product of the two face
counts, and every diagonal entry equals 0.5. -/
theorem C6_matrix_entries (dice : List (List ℤ)) (i j : ℕ)
    (hi : i < dice.length) (hj : j < dice.length) :
    (i = j → probEntry dice i j = 1 / 2) ∧
    (i ≠ j → probEntry dice i j =
      ((((dice.getD i []).product (dice.getD j [])).countP
          (fun p => decide (p.2 < p.1)) : ℕ) : ℚ) /
        (((dice.getD i []).length * (dice.getD j []).length : ℕ) : ℚ)) := by
  rw [probEntry_eq dice i j hi hj]
  constructor
  · intro hEq
    rw [if_pos hEq]
  · intro hNe
    rw [if_neg hNe]
    unfold calculatePairProbability
    rw [countWins_eq_product, countPairs_eq]

/-- C6, witness at the two-dice list `[[1], [2]]`, entries `(0, 1)`. -/
theorem C6_matrix_entries_witness :
    (0 = 1 → probEntry [[1], [2]] 0 1 = 1 / 2) ∧
    ((0 : ℕ) ≠ 1 → probEntry [[1], [2]] 0 1 =
      (((([[1], [2]].getD 0 []).product ([[1], [2]].getD 1 [])).countP
          (fun p => decide (p.2 < p.1)) : ℕ) : ℚ) /
        ((([[1], [2]].getD 0 []).length * ([[1], [2]].getD 1 []).length : ℕ) : ℚ)) :=
  C6_matrix_entries [[1], [2]] 0 1 (by decide) (by decide)

/-- C7 counterexample, two independent falsifications of the claim.
First, the resampling set is off by one from the claim's wording: for
the range `[0, 1]` the byte width is 1 and the largest multiple of 2
representable in one byte is 254; the raw draw 255 exceeds it, yet the
code accepts 255 (it is not resampled: `maxValid = 256 / 2 * 2 - 1 =
255`) and returns `255 % 2 + 0 = 1`.  Second, the in-range guarantee
fails for ranges needing 4 bytes: for `[0, 2 ^ 24]` the draw bytes
`[128, 0, 0, 0]` are assembled through the wrapping 32-bit shift to
`-2147483648`, which is never `> maxValid` and is accepted, and the
truncating `%` then returns `-16777089`, far below `min = 0`. -/
theorem C7_counterexample :
    bytesNeeded 2 = 1 ∧
    specLargestByteMultiple 1 2 = 254 ∧
    254 < 255 ∧
    rejectLoop 1 2 [[255]] = some 255 ∧
    generateUniformRandom 0 1 [[255]] = some 1 ∧
    bytesNeeded 16777217 = 4 ∧
    assembleBytes [128, 0, 0, 0] = -2147483648 ∧
    generateUniformRandom 0 16777216 [[128, 0, 0, 0]] = some (-16777089) ∧
    (-16777089 : ℤ) < 0 :=
  ⟨by decide, by decide, by decide, by decide, by decide, by decide,
    by decide, by decide, by decide⟩

/-- C7 as amended: for every range of width at most `2 ^ 24` — at most
3 random bytes, where the 32-bit shift cannot wrap and the float
arithmetic of the source is exact; the game only ever uses widths 2 and
`faceCount` — and draws shaped like genuine `crypto.randomBytes` output
(`bytesNeeded` bytes, each below 256), the draw returns only integers
in `[min, max]`.  The rejection loop resamples exactly the raw draws
`v` with `v ≥ (256 ^ b / range) * range` — the draws at or beyond the
largest multiple of `range` not exceeding `256 ^ b`, i.e. outside the
largest prefix of the byte space evenly divisible by `range` (one more
draw than the claim's "exceed the largest representable multiple"
wording when `range` divides `256 ^ b`, one fewer when it does not).
The degenerate case `min = max` returns `min` without dividing by zero.
For wider ranges the in-range guarantee genuinely fails (see the wrap
conjuncts of the counterexample). -/
theorem C7_amended (min max : ℤ) (hle : min ≤ max)
    (hw : max - min + 1 ≤ 16777216) :
    (∀ (draws : List (List ℕ)) (r : ℤ),
      (∀ bytes ∈ draws,
        bytes.length = bytesNeeded (max - min + 1).toNat ∧ ∀ x ∈ bytes, x < 256) →
      generateUniformRandom min max draws = some r → min ≤ r ∧ r ≤ max) ∧
    (∀ (b range : ℕ) (bytes : List ℕ) (rest : List (List ℕ)),
      (assembleBytes bytes < ((256 ^ b / range * range : ℕ) : ℤ) →
        rejectLoop b range (bytes :: rest) = some (assembleBytes bytes)) ∧
      (((256 ^ b / range * range : ℕ) : ℤ) ≤ assembleBytes bytes →
        rejectLoop b range (bytes :: rest) = rejectLoop b range rest)) ∧
    (min = max → generateUniformRandom min max [[]] = some min) := by
  refine ⟨?_, ?_, ?_⟩
  · intro draws r hdraws h
    rw [generateUniformRandom] at h
    cases hrl : rejectLoop (bytesNeeded (max - min + 1).toNat) (max - min + 1).toNat draws with
    | none => rw [hrl] at h; exact absurd h (by simp)
    | some v =>
      rw [hrl] at h
      cases h
      rcases rejectLoop_mem _ _ draws v hrl with ⟨bytes, hmem, hveq⟩
      rcases hdraws bytes hmem with ⟨hlen, hbts⟩
      have hble : bytesNeeded (max - min + 1).toNat ≤ 3 := by
        apply (bytesNeeded_spec (max - min + 1).toNat).2
        have h256 : (256 : ℕ) ^ 3 = 16777216 := by norm_num
        omega
      have hple : (256 : ℤ) ^ bytes.length ≤ 256 ^ 3 := by
        rw [hlen]
        exact pow_le_pow_right₀ (by norm_num) hble
      have hbound : ((0 : ℤ) + 1) * 256 ^ bytes.length ≤ 2147483648 := by
        have h256 : (256 : ℤ) ^ 3 = 16777216 := by norm_num
        linarith
      have hv0 : 0 ≤ assembleBytes bytes := by
        unfold assembleBytes
        exact (assembleFold_bounds bytes hbts 0 le_rfl hbound).1
      have hv0v : 0 ≤ v := hveq ▸ hv0
      have htm : Int.tmod v (max - min + 1) = v % (max - min + 1) :=
        Int.tmod_eq_emod hv0v (by omega)
      have h1 := Int.emod_nonneg v (by omega : max - min + 1 ≠ 0)
      have h2 := Int.emod_lt_of_pos v (by omega : (0 : ℤ) < max - min + 1)
      rw [htm]
      constructor <;> omega
  · intro b range bytes rest
    constructor
    · intro hlt
      have hM : ¬ (assembleBytes bytes > maxValidFor b range) := by
        unfold maxValidFor
        generalize 256 ^ b / range * range = M at hlt ⊢
        omega
      rw [rejectLoop, if_neg hM]
    · intro hge
      have hM : assembleBytes bytes > maxValidFor b range := by
        unfold maxValidFor
        generalize 256 ^ b / range * range = M at hge ⊢
        omega
      rw [rejectLoop, if_pos hM]
  · intro hEq
    subst hEq
    rw [generateUniformRandom]
    have h1 : (min - min + 1).toNat = 1 := by omega
    rw [h1]
    have h2 : rejectLoop (bytesNeeded 1) 1 [[]] = some 0 := by decide
    rw [h2]
    have h3 : Int.tmod 0 (min - min + 1) = 0 := by
      rw [Int.tmod_eq_emod le_rfl (by omega)]
      exact Int.zero_emod _
    show some (Int.tmod 0 (min - min + 1) + min) = some min
    rw [h3]
    norm_num

/-- C7 amended, witness at `min = 0`, `max = 5`, draw `[3]`. -/
theorem C7_amended_witness : (0 : ℤ) ≤ 3 ∧ (3 : ℤ) ≤ 5 :=
  (C7_amended 0 5 (by decide) (by decide)).1 [[3]] 3 (by decide) (by decide)

lemma userChooseDice_accepted (n : ℕ) (exclude : ℤ) :
    ∀ (inputs : List String) (d : ℤ) (rest : List String),
      userChooseDice n exclude inputs = some (some d, rest) →
      0 ≤ d ∧ d < (n : ℤ) ∧ d ≠ exclude := by
  intro inputs
  induction inputs with
  | nil =>
    intro d rest h
    rw [userChooseDice] at h
    exact absurd h (by simp)
  | cons s tl ih =>
    intro d rest h
    rw [userChooseDice] at h
    by_cases hX : jsUpper (jsTrim s) = "X"
    · rw [if_pos hX] at h
      exact absurd h (by simp)
    · rw [if_neg hX] at h
      by_cases hQ : jsTrim s = "?"
      · rw [if_pos hQ] at h
        exact ih d rest h
      · rw [if_neg hQ] at h
        cases hp : jsParseInt (jsTrim s) with
        | nan =>
          rw [hp] at h
          exact ih d rest h
        | int m =>
          rw [hp] at h
          dsimp only at h
          by_cases hc : 0 ≤ m ∧ m < (n : ℤ) ∧ m ≠ exclude
          · rw [if_pos hc] at h
            cases h
            exact hc
          · rw [if_neg hc] at h
            exact ih d rest h

/-- C8: once the first player's die index is taken, the second player's
selection excludes exactly that index and no other.  The computer's
filtered pool contains precisely the indices different from the taken
one; whatever the random pick, the computer's choice is a valid index
different from the taken one, and every such index is reachable.  The
user's prompt accepts exactly the in-range indices different from the
taken one: every accepted selection satisfies the exclusion, and every
non-excluded in-range index typed at the prompt is accepted. -/
theorem C8_exclusion (n : ℕ) (exclude : ℤ) :
    (∀ j : ℕ, j ∈ (List.range n).filter (fun (i : ℕ) => ((i : ℤ) ≠ exclude : Prop)) ↔
      j < n ∧ (j : ℤ) ≠ exclude) ∧
    (∀ r j, computerChooseDice n exclude r = some j → j < n ∧ (j : ℤ) ≠ exclude) ∧
    (∀ j : ℕ, j < n → (j : ℤ) ≠ exclude → ∃ r, computerChooseDice n exclude r = some j) ∧
    (∀ inputs d rest, userChooseDice n exclude inputs = some (some d, rest) →
      0 ≤ d ∧ d < (n : ℤ) ∧ d ≠ exclude) ∧
    (∀ d : ℤ, 0 ≤ d → d < (n : ℤ) → d ≠ exclude → ∀ rest : List String,
      userChooseDice n exclude (natDecimal d.toNat :: rest) = some (some d, rest)) := by
  have hmem : ∀ j : ℕ,
      j ∈ (List.range n).filter (fun (i : ℕ) => ((i : ℤ) ≠ exclude : Prop)) ↔
      j < n ∧ (j : ℤ) ≠ exclude := by
    intro j
    rw [List.mem_filter, List.mem_range]
    simp
  refine ⟨hmem, ?_, ?_, userChooseDice_accepted n exclude, ?_⟩
  · intro r j h
    exact (hmem j).mp (List.get?_mem h)
  · intro j hj hje
    rcases List.mem_iff_get.mp ((hmem j).mpr ⟨hj, hje⟩) with ⟨k, hk⟩
    exact ⟨k, by rw [computerChooseDice, List.get?_eq_get k.isLt, hk]⟩
  · intro d h0 hn hne rest
    rcases natDecimal_props d.toNat with ⟨hTrim, hX, hQ, hP⟩
    have htn : ((d.toNat : ℕ) : ℤ) = d := Int.toNat_of_nonneg h0
    simp only [userChooseDice, hTrim, if_neg hX, if_neg hQ, hP, htn]
    rw [if_pos ⟨h0, hn, hne⟩]

/-- C8, witness at `n = 3`, excluded index 1, chosen index 2. -/
theorem C8_exclusion_witness :
    userChooseDice 3 1 (natDecimal (2 : ℤ).toNat :: ["7"]) = some (some 2, ["7"]) :=
  (C8_exclusion 3 1).2.2.2.2 2 (by decide) (by decide) (by decide) ["7"]

/-- C9: a user cancellation (a line whose trimmed upper-case is "X") at
any prompt — first-player determination, die selection, or either
roll — makes the owning stage return `null`; `playGame` then terminates
in the Exited outcome without adjudicating, and the process exit code is
the 0 established at game creation (after successful argument validation
the source never calls `process.exit` again, whatever the game outcome).
Conjuncts: cancellation recognition at the two kinds of prompt, then
propagation to `Outcome.exited` from every stage of both turn orders,
then non-adjudication and the exit code. -/
theorem C9_cancellation :
    (∀ (min max : ℤ) (s : String) (rest : List String),
      jsUpper (jsTrim s) = "X" →
      getUserNumber min max (s :: rest) = some (.cancel, rest)) ∧
    (∀ (n : ℕ) (ex : ℤ) (s : String) (rest : List String),
      jsUpper (jsTrim s) = "X" →
      userChooseDice n ex (s :: rest) = some (none, rest)) ∧
    (∀ (dice : List (List ℤ)) (c1 : ℤ) (rc : ℕ) (c2 c3 : ℤ)
        (inputs r : List String),
      determineFirstPlayer c1 inputs = some (none, r) →
      playGame dice c1 rc c2 c3 inputs = some .exited) ∧
    (∀ (dice : List (List ℤ)) (c1 : ℤ) (rc : ℕ) (c2 c3 : ℤ)
        (inputs rest r : List String) (f : ℕ),
      determineFirstPlayer c1 inputs = some (some true, rest) →
      computerChooseDice dice.length (-1) rc = some f →
      userChooseDice dice.length (f : ℤ) rest = some (none, r) →
      playGame dice c1 rc c2 c3 inputs = some .exited) ∧
    (∀ (dice : List (List ℤ)) (c1 : ℤ) (rc : ℕ) (c2 c3 : ℤ)
        (inputs rest r : List String),
      determineFirstPlayer c1 inputs = some (some false, rest) →
      userChooseDice dice.length (-1) rest = some (none, r) →
      playGame dice c1 rc c2 c3 inputs = some .exited) ∧
    (∀ (dice : List (List ℤ)) (c1 : ℤ) (rc : ℕ) (c2 c3 : ℤ)
        (inputs rest rest2 r : List String) (f : ℕ) (sIdx : ℤ),
      determineFirstPlayer c1 inputs = some (some true, rest) →
      computerChooseDice dice.length (-1) rc = some f →
      userChooseDice dice.length (f : ℤ) rest = some (some sIdx, rest2) →
      rollDice (dice.getD f []) c2 rest2 = some (none, r) →
      playGame dice c1 rc c2 c3 inputs = some .exited) ∧
    (∀ (dice : List (List ℤ)) (c1 : ℤ) (rc : ℕ) (c2 c3 : ℤ)
        (inputs rest rest2 rest3 r : List String) (f : ℕ) (sIdx : ℤ)
        (firstRoll : Option ℤ),
      determineFirstPlayer c1 inputs = some (some true, rest) →
      computerChooseDice dice.length (-1) rc = some f →
      userChooseDice dice.length (f : ℤ) rest = some (some sIdx, rest2) →
      rollDice (dice.getD f []) c2 rest2 = some (some firstRoll, rest3) →
      rollDice (dice.getD sIdx.toNat []) c3 rest3 = some (none, r) →
      playGame dice c1 rc c2 c3 inputs = some .exited) ∧
    (∀ (dice : List (List ℤ)) (c1 : ℤ) (rc : ℕ) (c2 c3 : ℤ)
        (inputs rest rest2 r : List String) (f : ℤ) (sIdx : ℕ),
      determineFirstPlayer c1 inputs = some (some false, rest) →
      userChooseDice dice.length (-1) rest = some (some f, rest2) →
      computerChooseDice dice.length f rc = some sIdx →
      rollDice (dice.getD f.toNat []) c2 rest2 = some (none, r) →
      playGame dice c1 rc c2 c3 inputs = some .exited) ∧
    (∀ (dice : List (List ℤ)) (c1 : ℤ) (rc : ℕ) (c2 c3 : ℤ)
        (inputs rest rest2 rest3 r : List String) (f : ℤ) (sIdx : ℕ)
        (firstRoll : Option ℤ),
      determineFirstPlayer c1 inputs = some (some false, rest) →
      userChooseDice dice.length (-1) rest = some (some f, rest2) →
      computerChooseDice dice.length f rc = some sIdx →
      rollDice (dice.getD f.toNat []) c2 rest2 = some (some firstRoll, rest3) →
      rollDice (dice.getD sIdx []) c3 rest3 = some (none, r) →
      playGame dice c1 rc c2 c3 inputs = some .exited) ∧
    (∀ a b : Option ℤ, Outcome.exited ≠ Outcome.adjudicated a b) ∧
    (∀ (args : List String) (cs : List (List ℤ)),
      mainRun args = .game cs → mainExitCode args = 0) := by
  refine ⟨?_, ?_, ?_, ?_, ?_, ?_, ?_, ?_, ?_, ?_, ?_⟩
  · intro min max s rest hX
    rw [getUserNumber, if_pos hX]
  · intro n ex s rest hX
    rw [userChooseDice, if_pos hX]
  · intro dice c1 rc c2 c3 inputs r h1
    simp [playGame, h1]
  · intro dice c1 rc c2 c3 inputs rest r f h1 h2 h3
    simp [playGame, h1, h2, h3]
  · intro dice c1 rc c2 c3 inputs rest r h1 h2
    simp [playGame, h1, h2]
  · intro dice c1 rc c2 c3 inputs rest rest2 r f sIdx h1 h2 h3 h4
    rw [List.getD_eq_getElem?_getD] at h4
    simp [playGame, h1, h2, h3, h4]
  · intro dice c1 rc c2 c3 inputs rest rest2 rest3 r f sIdx firstRoll h1 h2 h3 h4 h5
    rw [List.getD_eq_getElem?_getD] at h4 h5
    simp [playGame, h1, h2, h3, h4, h5]
  · intro dice c1 rc c2 c3 inputs rest rest2 r f sIdx h1 h2 h3 h4
    rw [List.getD_eq_getElem?_getD] at h4
    simp [playGame, h1, h2, h3, h4]
  · intro dice c1 rc c2 c3 inputs rest rest2 rest3 r f sIdx firstRoll h1 h2 h3 h4 h5
    rw [List.getD_eq_getElem?_getD] at h4 h5
    simp [playGame, h1, h2, h3, h4, h5]
  · intro a b h
    exact Outcome.noConfusion h
  · intro args cs h
    rw [mainExitCode, h]

/-- C9, witness: an "x" at the very first prompt cancels the exchange
and exits the game with no adjudication. -/
theorem C9_cancellation_witness :
    getUserNumber 0 1 ["x"] = some (.cancel, []) ∧
    playGame [[1]] 0 0 0 0 ["x"] = some .exited :=
  ⟨C9_cancellation.1 0 1 "x" [] (by decide),
    C9_cancellation.2.2.1 [[1]] 0 0 0 0 ["x"] [] (by decide)⟩

/-- C10: `getValue` (`this.faces[faceIndex]`) performs no bounds check —
for a `NaN` index and for every integer index outside
`[0, faceCount - 1]` it returns `undefined` (`none`) rather than
signalling an error, and `rollDice` consequently reports an `undefined`
roll when the Help slip's `NaN` face index reaches it. -/
theorem C10_getValue_unchecked (faces : List ℤ) :
    getValue faces JSNum.nan = none ∧
    (∀ n : ℤ, n < 0 ∨ (faces.length : ℤ) ≤ n → getValue faces (JSNum.int n) = none) ∧
    (∀ (c : ℤ) (rest : List String),
      rollDice faces c ("?" :: rest) = some (some none, rest)) := by
  refine ⟨rfl, ?_, ?_⟩
  · intro n hn
    rw [getValue]
    by_cases h0 : 0 ≤ n
    · rw [if_pos h0]
      exact List.get?_eq_none.mpr (by omega)
    · rw [if_neg h0]
  · intro c rest
    have hX : ¬ (jsUpper (jsTrim "?") = "X") := by decide
    have hQ : jsTrim "?" = "?" := by decide
    rw [rollDice, fairRandomGeneration, getUserNumber, if_neg hX, if_pos hQ]
    rfl

/-- C10, witness: index 5 on a 1-face die yields `undefined`. -/
theorem C10_getValue_unchecked_witness :
    getValue [1] (JSNum.int 5) = none :=
  (C10_getValue_unchecked [1]).2.1 5 (Or.inr (by decide))
